import Mathlib

/-!
# Madden companion export receiver: path classification and export persistence

A shallow embedding of `pkg/madden/handlers.go` (`extractPathMetadata`,
`Service.ProcessExport`, `Service.ExportHandler`) and of the helpers of
`pkg/utils/file.go` they call.

Conventions of the embedding.

* A Go `string` or `[]byte` is a finite sequence of bytes.  It is embedded as a Lean
  `String` read one character per byte; the literals of the source are ASCII, so they are
  the same literals here.  Splitting, joining, comparing and concatenating are done
  position by position, exactly as Go does them on bytes.
* A Go `error` is embedded by its message (`err.Error()`); `nil` is `none`.
* Calls of `s.logger` have no effect on the values computed and are left out.
* What the operating system answers (directory creation, file write, reading the request
  body) is an input of the model; what the program does to the outside (response header,
  response text, files) is recorded, in order, in a list of `Event`s.
-/

deriving instance DecidableEq for Except

namespace strings

/-- Go `strings.Split(s, sep)` for a one-byte separator, on the bytes of `s`: the maximal
pieces between successive occurrences of `sep`, in order.  The result is never empty
(`Split("", sep)` is `[""]`).  Both call sites in `handlers.go` pass `"/"`. -/
def splitBytes (sep : Char) : List Char → List (List Char)
  | [] => [[]]
  | c :: cs =>
    if c = sep then [] :: splitBytes sep cs
    else
      match splitBytes sep cs with
      | [] => [[c]]
      | piece :: pieces => (c :: piece) :: pieces

/-- Go `strings.Split(s, sep)`, `sep` one byte long. -/
def Split (s : String) (sep : Char) : List String :=
  (splitBytes sep s.data).map String.mk

/-- Go `strings.Join(elems, sep)`. -/
def Join : List String → String → String
  | [], _ => ""
  | [e], _ => e
  | e :: es, sep => e ++ sep ++ Join es sep

end strings

namespace json

/-- What `json.Unmarshal` stores into an `interface{}`: `nil`, `bool`, `float64`, `string`,
`[]interface{}` or `map[string]interface{}`.  A `float64` is kept as the number literal it
was converted from; a map is the list of its entries (keys distinct). -/
inductive Value where
  | null
  | bool (b : Bool)
  | number (lit : String)
  | string (s : String)
  | array (elems : List Value)
  | object (members : List (String × Value))

/-- Go `v, ok := m[key]` on a `map[string]interface{}`. -/
def mapIndex (m : List (String × Value)) (key : String) : Option Value :=
  m.lookup key

/-- Go `m[key] = v`: the entry of `key` is replaced when the map has one. -/
def mapStore : List (String × Value) → String → Value → List (String × Value)
  | [], key, v => [(key, v)]
  | (k, w) :: rest, key, v =>
    if k = key then (k, v) :: rest else (k, w) :: mapStore rest key v

/-- Insertion of a rendered map entry among entries already sorted by key. -/
def insertByKey (e : String × String) : List (String × String) → List (String × String)
  | [] => [e]
  | x :: xs => if e.1.data < x.1.data then e :: x :: xs else x :: insertByKey e xs

/-- Map entries in increasing key order, as `fmt` prints them. -/
def sortByKey : List (String × String) → List (String × String)
  | [] => []
  | e :: es => insertByKey e (sortByKey es)

mutual
/-- Go `fmt.Sprintf("%v", v)` for a value decoded into an `interface{}`.  `formatFloat` is
the `%v` rendering of the `float64` a number literal stands for. -/
def Sprint (formatFloat : String → String) : Value → String
  | .null => "<nil>"
  | .bool b => if b then "true" else "false"
  | .number lit => formatFloat lit
  | .string s => s
  | .array elems => "[" ++ strings.Join (SprintElems formatFloat elems) " " ++ "]"
  | .object members =>
    "map[" ++ strings.Join
      ((sortByKey (SprintMembers formatFloat members)).map (fun e => e.1 ++ ":" ++ e.2)) " "
      ++ "]"
/-- The renderings of the elements of a slice. -/
def SprintElems (formatFloat : String → String) : List Value → List String
  | [] => []
  | v :: vs => Sprint formatFloat v :: SprintElems formatFloat vs
/-- The entries of a map, each value rendered. -/
def SprintMembers (formatFloat : String → String) :
    List (String × Value) → List (String × String)
  | [] => []
  | (k, v) :: kvs => (k, Sprint formatFloat v) :: SprintMembers formatFloat kvs
end

/-! ### The decoder `json.Unmarshal(data, &v)` for `v interface{}`

A model of the decoder of `encoding/json`, used to run the program on concrete request
bodies.  The theorems about `ProcessExport` are stated for an arbitrary decoder. -/

/-- The scanner's `isSpace`. -/
def isSpace (c : Char) : Bool :=
  c = ' ' || c = '\t' || c = '\r' || c = '\n'

/-- Input after the leading white space. -/
def skipSpace : List Char → List Char
  | [] => []
  | c :: cs => if isSpace c then skipSpace cs else c :: cs

/-- The longest prefix of decimal digits, and what follows it. -/
def takeDigits : List Char → List Char × List Char
  | [] => ([], [])
  | c :: cs =>
    if c.isDigit then ((takeDigits cs).1.cons c, (takeDigits cs).2) else ([], c :: cs)

/-- The value of a run of decimal digits. -/
def digitsValue (ds : List Char) : Nat :=
  ds.foldl (fun acc d => 10 * acc + (d.toNat - '0'.toNat)) 0

/-- The parts of a number literal `-? int (. frac)? ([eE] [+-]? exp)?`. -/
structure NumberParts where
  int : List Char
  frac : List Char
  expNeg : Bool
  exp : List Char

/-- The optional fraction and exponent of a number literal, after its integer part. -/
def scanFracExp (int : List Char) (s : List Char) : Option (NumberParts × List Char) :=
  let fracPart : Option (List Char × List Char) :=
    match s with
    | '.' :: t => if (takeDigits t).1 = [] then none else some (takeDigits t)
    | _ => some ([], s)
  match fracPart with
  | none => none
  | some (frac, s1) =>
    let expDigits (neg : Bool) (t : List Char) : Option (NumberParts × List Char) :=
      if (takeDigits t).1 = [] then none
      else some ({ int := int, frac := frac, expNeg := neg, exp := (takeDigits t).1 },
        (takeDigits t).2)
    let expPart (t : List Char) : Option (NumberParts × List Char) :=
      match t with
      | '+' :: u => expDigits false u
      | '-' :: u => expDigits true u
      | u => expDigits false u
    match s1 with
    | 'e' :: t => expPart t
    | 'E' :: t => expPart t
    | _ => some ({ int := int, frac := frac, expNeg := false, exp := [] }, s1)

/-- A number literal at the head of the input: its parts and what follows it. -/
def scanNumber (s : List Char) : Option (NumberParts × List Char) :=
  let s0 := match s with
    | '-' :: t => t
    | _ => s
  match s0 with
  | [] => none
  | '0' :: t => scanFracExp ['0'] t
  | c :: t =>
    if c.isDigit then scanFracExp (takeDigits (c :: t)).1 (takeDigits (c :: t)).2 else none

/-- Whether `strconv.ParseFloat(lit, 64)` reports a range error: the magnitude of the
literal is at least `2^1024 - 2^970` (written below as `(2^256)^4 - (2^256)^3 * 2^202`),
half a unit in the last place above the largest `float64`.  `convertNumber` turns that into
an error of `Unmarshal`. -/
def overflowsFloat64 (n : NumberParts) : Bool :=
  let mant := digitsValue (n.int ++ n.frac)
  let e := digitsValue n.exp
  let f := n.frac.length
  let limit := (2 ^ 256) ^ 4 - (2 ^ 256) ^ 3 * 2 ^ 202
  if n.expNeg then decide (limit * 10 ^ (e + f) ≤ mant)
  else if f ≤ e then decide (limit ≤ mant * 10 ^ (e - f))
  else decide (limit * 10 ^ (f - e) ≤ mant)

/-- The byte `n`, as one character of the embedding. -/
def byte (n : Nat) : Char := Char.ofNat n

/-- Whether a byte is a UTF-8 continuation byte in the range `lo ..= hi`. -/
def inRange (lo hi : Nat) (c : Char) : Bool :=
  decide (lo ≤ c.toNat) && decide (c.toNat ≤ hi)

/-- Go `utf8.DecodeRune` as far as the decoder needs it: the length of the well-formed
multi-byte encoding at the head of the input, `none` when the head is not one (the decoder
then writes U+FFFD and moves one byte on). -/
def utf8Len : List Char → Option Nat
  | b0 :: b1 :: rest =>
    let n := b0.toNat
    let two := inRange 0xC2 0xDF b0 && inRange 0x80 0xBF b1
    let b1ok3 :=
      if n = 0xE0 then inRange 0xA0 0xBF b1
      else if n = 0xED then inRange 0x80 0x9F b1
      else inRange 0xE1 0xEF b0 && inRange 0x80 0xBF b1
    let b1ok4 :=
      if n = 0xF0 then inRange 0x90 0xBF b1
      else if n = 0xF4 then inRange 0x80 0x8F b1
      else inRange 0xF1 0xF3 b0 && inRange 0x80 0xBF b1
    if two then some 2
    else
      match rest with
      | b2 :: rest2 =>
        if b1ok3 && inRange 0x80 0xBF b2 then some 3
        else
          match rest2 with
          | b3 :: _ =>
            if b1ok4 && inRange 0x80 0xBF b2 && inRange 0x80 0xBF b3 then some 4 else none
          | [] => none
      | [] => none
  | _ => none

/-- Go `utf8.EncodeRune` for a rune that is not a surrogate and at most U+10FFFF. -/
def encodeRune (r : Nat) : List Char :=
  if r < 0x80 then [byte r]
  else if r < 0x800 then [byte (0xC0 + r / 64), byte (0x80 + r % 64)]
  else if r < 0x10000 then
    [byte (0xE0 + r / 4096), byte (0x80 + r / 64 % 64), byte (0x80 + r % 64)]
  else
    [byte (0xF0 + r / 262144), byte (0x80 + r / 4096 % 64), byte (0x80 + r / 64 % 64),
      byte (0x80 + r % 64)]

/-- The value of a hexadecimal digit. -/
def hexValue (c : Char) : Option Nat :=
  if c.isDigit then some (c.toNat - '0'.toNat)
  else if inRange 'a'.toNat 'f'.toNat c then some (c.toNat - 'a'.toNat + 10)
  else if inRange 'A'.toNat 'F'.toNat c then some (c.toNat - 'A'.toNat + 10)
  else none

/-- The four hexadecimal digits of a `\uXXXX` escape, after `\u`: their value and what
follows them. -/
def hex4 : List Char → Option (Nat × List Char)
  | a :: b :: c :: d :: rest =>
    match hexValue a, hexValue b, hexValue c, hexValue d with
    | some x, some y, some z, some w => some (((x * 16 + y) * 16 + z) * 16 + w, rest)
    | _, _, _, _ => none
  | _ => none

/-- The replacement rune U+FFFD. -/
def runeError : Nat := 0xFFFD

/-- The rune of a `\uXXXX` escape whose digits have value `rr`, and the input after it.  A
high surrogate directly followed by the escape of a low surrogate is the rune of the pair;
any other surrogate is U+FFFD. -/
def escapedRune (rr : Nat) (rest : List Char) : Nat × List Char :=
  if 0xD800 ≤ rr ∧ rr < 0xE000 then
    match rest with
    | '\\' :: 'u' :: rest1 =>
      match hex4 rest1 with
      | some (rr1, rest2) =>
        if rr < 0xDC00 ∧ 0xDC00 ≤ rr1 ∧ rr1 < 0xE000 then
          (0x10000 + (rr - 0xD800) * 1024 + (rr1 - 0xDC00), rest2)
        else (runeError, rest)
      | none => (runeError, rest)
    | _ => (runeError, rest)
  else (rr, rest)

/-- A string literal after its opening quote: the bytes of the Go string it denotes and
the input after the closing quote.  `none` on a control character, a bad escape or a
missing closing quote. -/
def scanString : Nat → List Char → Option (List Char × List Char)
  | 0, _ => none
  | _ + 1, [] => none
  | _ + 1, '"' :: rest => some ([], rest)
  | fuel + 1, '\\' :: c :: rest =>
    let emit (out : List Char) (rest1 : List Char) : Option (List Char × List Char) :=
      (scanString fuel rest1).map (fun r => (out ++ r.1, r.2))
    match c with
    | '"' => emit ['"'] rest
    | '\\' => emit ['\\'] rest
    | '/' => emit ['/'] rest
    | 'b' => emit [byte 8] rest
    | 'f' => emit [byte 12] rest
    | 'n' => emit ['\n'] rest
    | 'r' => emit ['\r'] rest
    | 't' => emit ['\t'] rest
    | 'u' =>
      match hex4 rest with
      | some (rr, rest1) => emit (encodeRune (escapedRune rr rest1).1) (escapedRune rr rest1).2
      | none => none
    | _ => none
  | fuel + 1, c :: rest =>
    if c = '\\' ∨ c.toNat < 0x20 then none
    else if c.toNat < 0x80 then (scanString fuel rest).map (fun r => (c :: r.1, r.2))
    else
      match utf8Len (c :: rest) with
      | some n =>
        (scanString fuel ((c :: rest).drop n)).map (fun r => ((c :: rest).take n ++ r.1, r.2))
      | none => (scanString fuel rest).map (fun r => (encodeRune runeError ++ r.1, r.2))

/-- The scanner's `maxNestingDepth`. -/
def maxNestingDepth : Nat := 10000

mutual
/-- One JSON value at the head of the input (after white space), `depth` arrays and objects
being open around it. -/
def parseValue : Nat → Nat → List Char → Option (Value × List Char)
  | 0, _, _ => none
  | fuel + 1, depth, s =>
    match skipSpace s with
    | '{' :: rest =>
      if maxNestingDepth < depth + 1 then none
      else
        match skipSpace rest with
        | '}' :: rest1 => some (.object [], rest1)
        | rest1 => parseMembers fuel (depth + 1) [] rest1
    | '[' :: rest =>
      if maxNestingDepth < depth + 1 then none
      else
        match skipSpace rest with
        | ']' :: rest1 => some (.array [], rest1)
        | rest1 => parseElems fuel (depth + 1) [] rest1
    | '"' :: rest =>
      (scanString (rest.length + 1) rest).map (fun r => (.string (String.mk r.1), r.2))
    | 't' :: 'r' :: 'u' :: 'e' :: rest => some (.bool true, rest)
    | 'f' :: 'a' :: 'l' :: 's' :: 'e' :: rest => some (.bool false, rest)
    | 'n' :: 'u' :: 'l' :: 'l' :: rest => some (.null, rest)
    | s1 =>
      match scanNumber s1 with
      | some (n, rest) =>
        if overflowsFloat64 n then none
        else some (.number (String.mk (s1.take (s1.length - rest.length))), rest)
      | none => none
/-- The elements of an array after `[` or `,`, up to the closing `]`; `acc` holds the
elements decoded so far. -/
def parseElems : Nat → Nat → List Value → List Char → Option (Value × List Char)
  | 0, _, _, _ => none
  | fuel + 1, depth, acc, s =>
    match parseValue fuel depth s with
    | none => none
    | some (v, rest) =>
      match skipSpace rest with
      | ',' :: rest1 => parseElems fuel depth (acc ++ [v]) rest1
      | ']' :: rest1 => some (.array (acc ++ [v]), rest1)
      | _ => none
/-- The members of an object after `{` or `,`, up to the closing `}`; `acc` is the map
built so far. -/
def parseMembers : Nat → Nat → List (String × Value) → List Char →
    Option (Value × List Char)
  | 0, _, _, _ => none
  | fuel + 1, depth, acc, s =>
    match skipSpace s with
    | '"' :: rest =>
      match scanString (rest.length + 1) rest with
      | none => none
      | some (key, rest1) =>
        match skipSpace rest1 with
        | ':' :: rest2 =>
          match parseValue fuel depth rest2 with
          | none => none
          | some (v, rest3) =>
            match skipSpace rest3 with
            | ',' :: rest4 => parseMembers fuel depth (mapStore acc (String.mk key) v) rest4
            | '}' :: rest4 => some (.object (mapStore acc (String.mk key) v), rest4)
            | _ => none
        | _ => none
    | _ => none
end

/-- Go `json.Unmarshal(data, &v)` with `v interface{}`: `some v` when the error returned is
`nil`, `none` otherwise (the input is not one JSON value surrounded by white space, it nests
deeper than `maxNestingDepth`, or a number does not fit a `float64`). -/
def Unmarshal (data : String) : Option Value :=
  match parseValue (2 * data.length + 2) 0 data.data with
  | some (v, rest) => if skipSpace rest = [] then some v else none
  | none => none

end json

namespace filepath

/-- The elements that `filepath.Clean` keeps, in order: empty and `.` elements are dropped,
a `..` element removes the element before it when that one is not `..` itself, is dropped
at the root, and is kept otherwise. -/
def cleanElems (rooted : Bool) (out : List String) : List String → List String
  | [] => out
  | elem :: elems =>
    if elem = "" ∨ elem = "." then cleanElems rooted out elems
    else if elem = ".." then
      match out.getLast? with
      | some last =>
        if last = ".." then cleanElems rooted (out ++ [".."]) elems
        else cleanElems rooted out.dropLast elems
      | none =>
        if rooted then cleanElems rooted out elems
        else cleanElems rooted (out ++ [".."]) elems
    else cleanElems rooted (out ++ [elem]) elems

/-- Go `filepath.Clean` with separator `/`. -/
def Clean (path : String) : String :=
  let rooted : Bool := path.data.head? = some '/'
  let out := strings.Join (cleanElems rooted [] (strings.Split path '/')) "/"
  if rooted then "/" ++ out
  else if out = "" then "."
  else out

/-- Go `filepath.Join(elem...)` with separator `/`: the elements from the first non-empty
one on, joined by `/` and cleaned; `""` when all are empty. -/
def Join : List String → String
  | [] => ""
  | e :: es => if e ≠ "" then Clean (strings.Join (e :: es) "/") else Join es

/-- The bytes of a path up to and including its last `/`. -/
def upToLastSeparator (path : List Char) : List Char :=
  (path.reverse.dropWhile (fun c => c ≠ '/')).reverse

/-- Go `filepath.Dir` with separator `/`. -/
def Dir (path : String) : String :=
  Clean (String.mk (upToLastSeparator path.data))

end filepath

namespace madden

/-- Go `PathMetadata` (handlers.go): metadata extracted from the URL path. -/
structure PathMetadata where
  Platform : String := ""
  LeagueID : String := ""
  ExportType : String := ""
  SeasonType : String := ""
  WeekNumber : String := ""
  DataType : String := ""
  deriving DecidableEq, Repr

/-- The loop `for _, part := range parts { if part != "" { cleanParts = append(cleanParts, part) } }`
of `extractPathMetadata`, started from `cleanParts`. -/
def removeEmptyParts (cleanParts : List String) : List String → List String
  | [] => cleanParts
  | part :: parts =>
    if part ≠ "" then removeEmptyParts (cleanParts ++ [part]) parts
    else removeEmptyParts cleanParts parts

/-- Go `extractPathMetadata` (handlers.go, lines 99-153).  `cleanParts[i]` under the guard
`len(cleanParts) > i` is `cleanParts[i]?` being `some _`. -/
def extractPathMetadata (path : String) : PathMetadata :=
  let metadata : PathMetadata := {}
  let parts := strings.Split path '/'
  let cleanParts := removeEmptyParts [] parts
  if cleanParts.length > 0 then
    if cleanParts[0]? = some "export" ∧ cleanParts.length > 1 then
      let metadata :=
        match cleanParts[1]? with
        | some x => { metadata with Platform := x }
        | none => metadata
      let metadata :=
        match cleanParts[2]? with
        | some x => { metadata with LeagueID := x }
        | none => metadata
      if cleanParts.length > 3 ∧ cleanParts[3]? = some "week" then
        let metadata := { metadata with ExportType := "week" }
        let metadata :=
          match cleanParts[4]? with
          | some x => { metadata with SeasonType := x }
          | none => metadata
        let metadata :=
          match cleanParts[5]? with
          | some x => { metadata with WeekNumber := x }
          | none => metadata
        let metadata :=
          match cleanParts[6]? with
          | some x => { metadata with DataType := x }
          | none => metadata
        metadata
      else
        match cleanParts[3]? with
        | some x => { metadata with ExportType := x }
        | none => metadata
    else metadata
  else metadata

/-- What the program does to the outside, one entry per call, in program order.  An entry
records that the call was made with these arguments; whether it succeeded is told by `Env`. -/
inductive Event where
  | WriteHeader (statusCode : Nat)
  | Fprintf (text : String)
  | ReadAll
  | BodyClose
  | MkdirAll (path : String)
  | WriteFile (path : String) (data : String)
  deriving DecidableEq, Repr

/-- What the environment answers during one call of `ProcessExport`. -/
structure Env where
  /-- Value of `time.Now().Format("20060102-150405")`. -/
  now : String
  /-- Error of `utils.EnsureDirectoryExists(s.DataDir)`. -/
  ensureDataDir : Option String
  /-- Error of `EnsureDirectoryExists(dir)` inside `SaveJSONToFile` / `SaveRawToFile`. -/
  ensureParent : Option String
  /-- Result of `json.MarshalIndent(data, "", "  ")`: the bytes, or the error. -/
  marshalIndent : Except String String
  /-- Error of `os.WriteFile(path, _, 0644)`. -/
  writeFile : Option String

/-- The two functions of the Go library whose results the program's decisions depend on and
that lie outside the repository. -/
structure Lib where
  /-- Go `json.Unmarshal(data, &jsonData)` with `jsonData interface{}`; `none` when
  `err != nil`. -/
  Unmarshal : String → Option json.Value
  /-- The `%v` rendering of the `float64` a number literal stands for. -/
  FormatFloat : String → String

/-- Go `Service` (service.go); the logger is left out. -/
structure Service where
  DataDir : String

/-- Go `utils.SaveRawToFile` (file.go, lines 38-51): the error returned and the calls made. -/
def SaveRawToFile (env : Env) (path : String) (data : String) : Option String × List Event :=
  let dir := filepath.Dir path
  match env.ensureParent with
  | some err => (some ("failed to create directory: " ++ err), [.MkdirAll dir])
  | none =>
    match env.writeFile with
    | some err => (some ("failed to write file: " ++ err), [.MkdirAll dir, .WriteFile path data])
    | none => (none, [.MkdirAll dir, .WriteFile path data])

/-- Go `utils.SaveJSONToFile` (file.go, lines 16-35): the error returned and the calls made. -/
def SaveJSONToFile (env : Env) (path : String) : Option String × List Event :=
  let dir := filepath.Dir path
  match env.ensureParent with
  | some err => (some ("failed to create directory: " ++ err), [.MkdirAll dir])
  | none =>
    match env.marshalIndent with
    | .error err => (some ("failed to marshal JSON: " ++ err), [.MkdirAll dir])
    | .ok jsonData =>
      match env.writeFile with
      | some err =>
        (some ("failed to write file: " ++ err), [.MkdirAll dir, .WriteFile path jsonData])
      | none => (none, [.MkdirAll dir, .WriteFile path jsonData])

/-- Go `typeVal, hasType := jsonMap[key]; hasType && typeVal != nil`: the value when the
condition holds. -/
def nonNilField (jsonMap : List (String × json.Value)) (key : String) : Option json.Value :=
  match json.mapIndex jsonMap key with
  | some .null => none
  | some typeVal => some typeVal
  | none => none

/-- The value of the local variable `exportType` of `ProcessExport` once lines 189-237 of
handlers.go have run on the decoded `jsonData`. -/
def exportTypeLabel (formatFloat : String → String) (jsonData : json.Value)
    (metadata : PathMetadata) : String :=
  match jsonData with
  | .object jsonMap =>
    match nonNilField jsonMap "exportType" with
    | some typeVal => json.Sprint formatFloat typeVal
    | none =>
      match nonNilField jsonMap "type" with
      | some typeVal => json.Sprint formatFloat typeVal
      | none =>
        if metadata.DataType ≠ "" then metadata.DataType
        else if metadata.ExportType ≠ "" ∧ metadata.ExportType ≠ "week" then
          metadata.ExportType
        else
          let parts := strings.Split metadata.Platform '/'
          match parts.getLast? with
          | some last => if last ≠ "" then last else "object"
          | none => "object"
  | .array jsonArr =>
    if metadata.DataType ≠ "" then metadata.DataType
    else "array_" ++ toString jsonArr.length
  | _ =>
    if metadata.DataType ≠ "" then metadata.DataType
    else "unknown"

/-- The slice `filenameParts` of `ProcessExport` (handlers.go, lines 247-264). -/
def filenameParts (metadata : PathMetadata) (exportType : String) : List String :=
  let filenameParts : List String := []
  let filenameParts :=
    if metadata.Platform ≠ "" then filenameParts ++ [metadata.Platform] else filenameParts
  let filenameParts :=
    if metadata.LeagueID ≠ "" then filenameParts ++ ["league_" ++ metadata.LeagueID]
    else filenameParts
  let filenameParts :=
    if metadata.SeasonType ≠ "" ∧ metadata.WeekNumber ≠ "" then
      filenameParts ++ [metadata.SeasonType ++ "_week_" ++ metadata.WeekNumber]
    else filenameParts
  let filenameParts :=
    if exportType ≠ "" then filenameParts ++ [exportType] else filenameParts
  filenameParts

/-- The variable `filenameBase` of `ProcessExport` (handlers.go, lines 270-275). -/
def filenameBase (metadata : PathMetadata) (exportType : String) : String :=
  if (filenameParts metadata exportType).length > 0 then
    strings.Join (filenameParts metadata exportType) "_"
  else "madden_export_" ++ exportType

/-- The file name `fmt.Sprintf("%s_%s.json", filenameBase, timestamp)` of line 277. -/
def jsonFileName (metadata : PathMetadata) (exportType : String) (timestamp : String) :
    String :=
  filenameBase metadata exportType ++ "_" ++ timestamp ++ ".json"

/-- Go `Service.ProcessExport` (handlers.go, lines 156-286): the pair returned (`.ok path`
for `(path, nil)`, `.error msg` for `("", err)`) and the calls made. -/
def ProcessExport (lib : Lib) (env : Env) (s : Service) (data : String)
    (metadata : PathMetadata) : Except String String × List Event :=
  match lib.Unmarshal data with
  | none =>
    match env.ensureDataDir with
    | some err => (.error ("failed to create data directory: " ++ err), [.MkdirAll s.DataDir])
    | none =>
      let timestamp := env.now
      let filename := filepath.Join [s.DataDir, "madden_raw_" ++ timestamp ++ ".txt"]
      match SaveRawToFile env filename data with
      | (some err, events) =>
        (.error ("failed to save raw data: " ++ err), .MkdirAll s.DataDir :: events)
      | (none, events) => (.ok filename, .MkdirAll s.DataDir :: events)
  | some jsonData =>
    let exportType := exportTypeLabel lib.FormatFloat jsonData metadata
    match env.ensureDataDir with
    | some err => (.error ("failed to create data directory: " ++ err), [.MkdirAll s.DataDir])
    | none =>
      let timestamp := env.now
      let filename := filepath.Join [s.DataDir, jsonFileName metadata exportType timestamp]
      match SaveJSONToFile env filename with
      | (some err, events) =>
        (.error ("failed to save data: " ++ err), .MkdirAll s.DataDir :: events)
      | (none, events) => (.ok filename, .MkdirAll s.DataDir :: events)

/-- An incoming request, as far as `ExportHandler` looks at it. -/
structure Request where
  /-- Go `r.Method`. -/
  Method : String
  /-- Go `r.URL.Path`. -/
  Path : String
  /-- What `io.ReadAll(r.Body)` returns: the bytes read, or the error. -/
  Body : Except String String

/-- Go `Service.ExportHandler` (handlers.go, lines 16-70): the calls made, in order. -/
def ExportHandler (lib : Lib) (env : Env) (s : Service) (r : Request) : List Event :=
  .WriteHeader 200 ::
    if r.Method = "GET" then
      [.Fprintf "Madden Companion Export endpoint is ready. Send data to this URL."]
    else
      .ReadAll ::
        match r.Body with
        | .error err => [.Fprintf ("Received request but could not read body: " ++ err)]
        | .ok body =>
          if body.length = 0 then
            [.Fprintf "Request received with empty body. Endpoint is working.", .BodyClose]
          else
            let pathMetadata := extractPathMetadata r.Path
            match ProcessExport lib env s body pathMetadata with
            | (.error err, events) =>
              events ++
                [.Fprintf ("Data received but could not be processed: " ++ err), .BodyClose]
            | (.ok _, events) =>
              events ++ [.Fprintf "Data received and saved successfully", .BodyClose]

/-- The status code of the response: that of the first `WriteHeader`, or 200 when response
text is written before any `WriteHeader` (net/http then sends the header implicitly).
Later `WriteHeader` calls do not change it. -/
def statusWritten : List Event → Option Nat
  | [] => none
  | .WriteHeader statusCode :: _ => some statusCode
  | .Fprintf _ :: _ => some 200
  | _ :: events => statusWritten events

/-- The response text: what the `Fprintf` calls wrote, in order. -/
def responseText : List Event → String
  | [] => ""
  | .Fprintf text :: events => text ++ responseText events
  | _ :: events => responseText events

/-- One instance of `Lib`, to run the program on concrete inputs: the decoder modelled
above, and number literals rendered as they are written.  That is what `%v` prints only
for a literal already in the form `%v` gives it, such as `7` or `0.5`; it is not Go's
rendering in general (`1000000` prints as `1e+06`, `1.0` as `1`).  No statement below
renders a number through this instance. -/
def sampleLib : Lib :=
  { Unmarshal := json.Unmarshal, FormatFloat := fun lit => lit }

/-- The list of non-empty `/`-delimited segments of a path, in order. -/
def nonEmptySegments (path : String) : List String :=
  (strings.Split path '/').filter (fun seg => seg ≠ "")

/-- The components of the JSON file name as the specification lists them, in order: the
platform if not empty; `league_` and the league id if the league id is not empty; the season
type, `_week_` and the week number if both are not empty; the label if not empty. -/
def specComponents (m : PathMetadata) (e : String) : List String :=
  (if m.Platform ≠ "" then [m.Platform] else []) ++
    (if m.LeagueID ≠ "" then ["league_" ++ m.LeagueID] else []) ++
    (if m.SeasonType ≠ "" ∧ m.WeekNumber ≠ "" then
      [m.SeasonType ++ "_week_" ++ m.WeekNumber] else []) ++
    (if e ≠ "" then [e] else [])

/-- The base of the JSON file name as the specification words it: the components joined by
`_`, or `madden_export_` and the label when there is no component. -/
def specBase (m : PathMetadata) (e : String) : String :=
  if specComponents m e = [] then "madden_export_" ++ e
  else strings.Join (specComponents m e) "_"

/-- Go `Service.ExportHandler` (handlers.go, lines 16-70) with the two functions of the
package it calls taken as parameters: `classify` stands for `extractPathMetadata` (line 56)
and `process` for `s.ProcessExport` (line 60).  The trace holds the outside calls of
`process` at the place where the handler calls it. -/
def ExportHandlerWith (classify : String → PathMetadata)
    (process : String → PathMetadata → Except String String × List Event) (r : Request) :
    List Event :=
  .WriteHeader 200 ::
    if r.Method = "GET" then
      [.Fprintf "Madden Companion Export endpoint is ready. Send data to this URL."]
    else
      .ReadAll ::
        match r.Body with
        | .error err => [.Fprintf ("Received request but could not read body: " ++ err)]
        | .ok body =>
          if body.length = 0 then
            [.Fprintf "Request received with empty body. Endpoint is working.", .BodyClose]
          else
            let pathMetadata := classify r.Path
            match process body pathMetadata with
            | (.error err, events) =>
              events ++
                [.Fprintf ("Data received but could not be processed: " ++ err), .BodyClose]
            | (.ok _, events) =>
              events ++ [.Fprintf "Data received and saved successfully", .BodyClose]

/-- The text `ExportHandler` answers with after `ProcessExport` has returned `result`
(handlers.go, lines 61-69). -/
def processedText (result : Except String String) : String :=
  match result with
  | .error err => "Data received but could not be processed: " ++ err
  | .ok _ => "Data received and saved successfully"

end madden

open madden

/-! ## Path classification -/

theorem removeEmptyParts_eq (cleanParts parts : List String) :
    removeEmptyParts cleanParts parts = cleanParts ++ parts.filter (fun seg => seg ≠ "") := by
  induction parts generalizing cleanParts with
  | nil => simp [removeEmptyParts]
  | cons part parts ih =>
    by_cases h : part = ""
    · simp [removeEmptyParts, h, ih]
    · simp [removeEmptyParts, h, ih]

theorem cleanParts_eq_nonEmptySegments (path : String) :
    removeEmptyParts [] (strings.Split path '/') = nonEmptySegments path := by
  simp [removeEmptyParts_eq, nonEmptySegments]

/-! ## Segments of a path

The list `nonEmptySegments` is determined by three facts: a leading `/` contributes nothing,
a non-empty piece free of `/` that is followed by `/` is the first segment, and such a piece
at the end of the path is the last segment.  Leading, trailing and repeated slashes
therefore never show in it. -/

theorem splitBytes_sep_cons (sep : Char) (cs : List Char) :
    strings.splitBytes sep (sep :: cs) = [] :: strings.splitBytes sep cs := by
  simp [strings.splitBytes]

theorem splitBytes_no_sep (sep : Char) (piece : List Char) (h : sep ∉ piece) :
    strings.splitBytes sep piece = [piece] := by
  induction piece with
  | nil => rfl
  | cons c cs ih =>
    have hc : c ≠ sep := fun heq => h (heq ▸ List.mem_cons_self _ _)
    have hcs : sep ∉ cs := fun hmem => h (List.mem_cons_of_mem _ hmem)
    simp [strings.splitBytes, hc, ih hcs]

theorem splitBytes_piece_sep (sep : Char) (piece cs : List Char) (h : sep ∉ piece) :
    strings.splitBytes sep (piece ++ sep :: cs) = piece :: strings.splitBytes sep cs := by
  induction piece with
  | nil => simp [strings.splitBytes]
  | cons c piece ih =>
    have hc : c ≠ sep := fun heq => h (heq ▸ List.mem_cons_self _ _)
    have hcs : sep ∉ piece := fun hmem => h (List.mem_cons_of_mem _ hmem)
    simp [strings.splitBytes, hc, ih hcs]

theorem nonEmptySegments_nil : nonEmptySegments "" = [] := by decide

theorem nonEmptySegments_leading_slash (path : String) :
    nonEmptySegments ("/" ++ path) = nonEmptySegments path := by
  have hdata : ("/" ++ path).data = '/' :: path.data := by
    simp [String.data_append]
  simp [nonEmptySegments, strings.Split, hdata, splitBytes_sep_cons]

theorem nonEmptySegments_segment_slash (seg path : String) (hne : seg ≠ "")
    (hfree : '/' ∉ seg.data) :
    nonEmptySegments (seg ++ "/" ++ path) = seg :: nonEmptySegments path := by
  have hdata : (seg ++ "/" ++ path).data = seg.data ++ '/' :: path.data := by
    simp [String.data_append]
  simp [nonEmptySegments, strings.Split, hdata, splitBytes_piece_sep _ _ _ hfree, hne]

theorem nonEmptySegments_last_segment (seg : String) (hne : seg ≠ "")
    (hfree : '/' ∉ seg.data) : nonEmptySegments seg = [seg] := by
  simp [nonEmptySegments, strings.Split, splitBytes_no_sep _ _ hfree, hne]

/-- C1. A path whose non-empty `/`-delimited segments are `export, p, l, week, s, w, d`
followed by any further segments is classified as platform `p`, league `l`, export type
`week`, season type `s`, week number `w`, data type `d`; the segments from index 7 on play
no part. -/
theorem extractPathMetadata_week (path p l s w d : String) (rest : List String)
    (h : nonEmptySegments path = "export" :: p :: l :: "week" :: s :: w :: d :: rest) :
    extractPathMetadata path =
      { Platform := p, LeagueID := l, ExportType := "week", SeasonType := s,
        WeekNumber := w, DataType := d } := by
  simp [extractPathMetadata, cleanParts_eq_nonEmptySegments, h]

theorem extractPathMetadata_week_witness :
    nonEmptySegments "export/ps5/12345/week/reg/3/schedules" =
        ["export", "ps5", "12345", "week", "reg", "3", "schedules"] ∧
      extractPathMetadata "export/ps5/12345/week/reg/3/schedules" =
        { Platform := "ps5", LeagueID := "12345", ExportType := "week", SeasonType := "reg",
          WeekNumber := "3", DataType := "schedules" } ∧
      extractPathMetadata "//export/ps5//12345/week/reg/3/schedules/more/parts/" =
        { Platform := "ps5", LeagueID := "12345", ExportType := "week", SeasonType := "reg",
          WeekNumber := "3", DataType := "schedules" } :=
  ⟨by decide,
    extractPathMetadata_week "export/ps5/12345/week/reg/3/schedules" "ps5" "12345" "reg" "3"
      "schedules" [] (by decide),
    extractPathMetadata_week "//export/ps5//12345/week/reg/3/schedules/more/parts/" "ps5"
      "12345" "reg" "3" "schedules" ["more", "parts"] (by decide)⟩

/-- C2. A path whose non-empty `/`-delimited segments are `export, p, l, t` followed by any
further segments, with `t` other than `week`, is classified as platform `p`, league `l`,
export type `t`, with season type, week number and data type empty. -/
theorem extractPathMetadata_direct (path p l t : String) (rest : List String)
    (h : nonEmptySegments path = "export" :: p :: l :: t :: rest) (ht : t ≠ "week") :
    extractPathMetadata path =
      { Platform := p, LeagueID := l, ExportType := t, SeasonType := "", WeekNumber := "",
        DataType := "" } := by
  simp [extractPathMetadata, cleanParts_eq_nonEmptySegments, h, ht]

theorem extractPathMetadata_direct_witness :
    nonEmptySegments "export/xbox/99/leagueteams" = ["export", "xbox", "99", "leagueteams"] ∧
      extractPathMetadata "export/xbox/99/leagueteams" =
        { Platform := "xbox", LeagueID := "99", ExportType := "leagueteams", SeasonType := "",
          WeekNumber := "", DataType := "" } :=
  ⟨by decide,
    extractPathMetadata_direct "export/xbox/99/leagueteams" "xbox" "99" "leagueteams" []
      (by decide) (by decide)⟩

/-- C3. A path with fewer than two non-empty `/`-delimited segments, or whose first
non-empty segment is not `export`, is classified with all six fields empty. -/
theorem extractPathMetadata_empty (path : String)
    (h : (nonEmptySegments path).length < 2 ∨ (nonEmptySegments path).head? ≠ some "export") :
    extractPathMetadata path =
      { Platform := "", LeagueID := "", ExportType := "", SeasonType := "", WeekNumber := "",
        DataType := "" } := by
  cases hs : nonEmptySegments path with
  | nil => simp [extractPathMetadata, cleanParts_eq_nonEmptySegments, hs]
  | cons a as =>
    rw [hs] at h
    rcases h with h | h
    · have : as = [] := by
        cases as with
        | nil => rfl
        | cons b bs => simp only [List.length_cons] at h; omega
      simp [extractPathMetadata, cleanParts_eq_nonEmptySegments, hs, this]
    · have : a ≠ "export" := by simpa using h
      simp [extractPathMetadata, cleanParts_eq_nonEmptySegments, hs, this]

theorem extractPathMetadata_empty_witness :
    extractPathMetadata "" = {} ∧ extractPathMetadata "/" = {} ∧
      extractPathMetadata "export" = {} ∧ extractPathMetadata "/export/" = {} ∧
      extractPathMetadata "/madden/ps5/123/standings" = {} :=
  ⟨extractPathMetadata_empty "" (Or.inl (by decide)),
    extractPathMetadata_empty "/" (Or.inl (by decide)),
    extractPathMetadata_empty "export" (Or.inl (by decide)),
    extractPathMetadata_empty "/export/" (Or.inl (by decide)),
    extractPathMetadata_empty "/madden/ps5/123/standings" (Or.inr (by decide))⟩

/-! ## Raw persistence -/

/-- C4. When the body does not decode as JSON, `ProcessExport` behaves the same for any two
metadata values; and when directory creation and the write succeed it returns the path
`filepath.Join(DataDir, "madden_raw_" + ts + ".txt")` after writing exactly the body to
that path (and nothing else to any file). -/
theorem ProcessExport_raw (lib : Lib) (env : Env) (s : Service) (body : String)
    (hbody : lib.Unmarshal body = none) :
    (∀ m m' : PathMetadata,
        ProcessExport lib env s body m = ProcessExport lib env s body m') ∧
      (env.ensureDataDir = none → env.ensureParent = none → env.writeFile = none →
        ∀ m : PathMetadata,
          ProcessExport lib env s body m =
            (.ok (filepath.Join [s.DataDir, "madden_raw_" ++ env.now ++ ".txt"]),
              [.MkdirAll s.DataDir,
                .MkdirAll (filepath.Dir
                  (filepath.Join [s.DataDir, "madden_raw_" ++ env.now ++ ".txt"])),
                .WriteFile (filepath.Join [s.DataDir, "madden_raw_" ++ env.now ++ ".txt"])
                  body])) := by
  refine ⟨fun m m' => ?_, fun h1 h2 h3 m => ?_⟩
  · simp only [ProcessExport, hbody]
  · simp [ProcessExport, hbody, SaveRawToFile, h1, h2, h3]

theorem ProcessExport_raw_witness :
    sampleLib.Unmarshal "not valid json\x7b\x7b\x7b" = none ∧
      ProcessExport sampleLib
          { now := "20240102-030405", ensureDataDir := none, ensureParent := none,
            marshalIndent := .ok "", writeFile := none }
          { DataDir := "./data" } "not valid json\x7b\x7b\x7b"
          { Platform := "ps5", LeagueID := "12345", ExportType := "standings" } =
        (.ok "data/madden_raw_20240102-030405.txt",
          [.MkdirAll "./data", .MkdirAll "data",
            .WriteFile "data/madden_raw_20240102-030405.txt" "not valid json\x7b\x7b\x7b"]) :=
  ⟨by rfl,
    ((ProcessExport_raw sampleLib
        { now := "20240102-030405", ensureDataDir := none, ensureParent := none,
          marshalIndent := .ok "", writeFile := none }
        { DataDir := "./data" } "not valid json\x7b\x7b\x7b" (by rfl)).2 rfl rfl rfl
      { Platform := "ps5", LeagueID := "12345", ExportType := "standings" }).trans
      (by decide)⟩

/-! ## The export-type label -/

theorem nonNilField_eq_some (jsonMap : List (String × json.Value)) (key : String)
    (v : json.Value) :
    nonNilField jsonMap key = some v ↔ json.mapIndex jsonMap key = some v ∧ v ≠ .null := by
  unfold nonNilField
  cases h : json.mapIndex jsonMap key with
  | none => simp
  | some u =>
    cases u <;> simp <;> intro hv <;> subst hv <;> simp

theorem nonNilField_eq_none (jsonMap : List (String × json.Value)) (key : String) :
    nonNilField jsonMap key = none ↔
      ∀ u, json.mapIndex jsonMap key = some u → u = .null := by
  unfold nonNilField
  cases h : json.mapIndex jsonMap key with
  | none => simp
  | some u => cases u <;> simp

/-- C5. For a JSON object payload the label is the `%v` rendering of the object's
`exportType` field when that field is present and not null; otherwise it is the rendering of
the `type` field when that one is present and not null.  In both cases the label is the same
for all path metadata. -/
theorem exportTypeLabel_payload_field (formatFloat : String → String)
    (jsonMap : List (String × json.Value)) (v : json.Value) :
    (json.mapIndex jsonMap "exportType" = some v → v ≠ .null →
        ∀ m : PathMetadata,
          exportTypeLabel formatFloat (.object jsonMap) m = json.Sprint formatFloat v) ∧
      ((∀ u, json.mapIndex jsonMap "exportType" = some u → u = .null) →
        json.mapIndex jsonMap "type" = some v → v ≠ .null →
        ∀ m : PathMetadata,
          exportTypeLabel formatFloat (.object jsonMap) m = json.Sprint formatFloat v) := by
  refine ⟨fun h hv m => ?_, fun h0 h hv m => ?_⟩
  · have h1 := (nonNilField_eq_some jsonMap "exportType" v).2 ⟨h, hv⟩
    simp [exportTypeLabel, h1]
  · have h1 := (nonNilField_eq_none jsonMap "exportType").2 h0
    have h2 := (nonNilField_eq_some jsonMap "type" v).2 ⟨h, hv⟩
    simp [exportTypeLabel, h1, h2]

theorem exportTypeLabel_payload_field_witness :
    sampleLib.Unmarshal "\x7b\"exportType\":\"standings\"\x7d" =
        some (.object [("exportType", .string "standings")]) ∧
      exportTypeLabel sampleLib.FormatFloat (.object [("exportType", .string "standings")])
          {} = "standings" ∧
      filenameBase {} "standings" = "standings" ∧
      exportTypeLabel sampleLib.FormatFloat
          (.object [("exportType", .null), ("type", .string "rosters")])
          { Platform := "ps5", ExportType := "standings", DataType := "passing" } =
        "rosters" :=
  ⟨by rfl,
    (exportTypeLabel_payload_field sampleLib.FormatFloat [("exportType", .string "standings")]
      (.string "standings")).1 (by rfl) (by simp) {},
    by decide,
    (exportTypeLabel_payload_field sampleLib.FormatFloat
      [("exportType", .null), ("type", .string "rosters")] (.string "rosters")).2
      (by intro u hu; cases hu; rfl) (by rfl) (by simp)
      { Platform := "ps5", ExportType := "standings", DataType := "passing" }⟩

/-- C6. For a decoded JSON value that is an object without a non-null `exportType` or
`type` field, an array of any length, or a scalar, and for path metadata whose `DataType`
is not empty, the label is `metadata.DataType`. -/
theorem exportTypeLabel_dataType (formatFloat : String → String) (jsonData : json.Value)
    (m : PathMetadata) (hd : m.DataType ≠ "")
    (hobj : ∀ jsonMap, jsonData = .object jsonMap →
      (∀ u, json.mapIndex jsonMap "exportType" = some u → u = .null) ∧
        (∀ u, json.mapIndex jsonMap "type" = some u → u = .null)) :
    exportTypeLabel formatFloat jsonData m = m.DataType := by
  cases jsonData with
  | object jsonMap =>
    have h1 := (nonNilField_eq_none jsonMap "exportType").2 (hobj jsonMap rfl).1
    have h2 := (nonNilField_eq_none jsonMap "type").2 (hobj jsonMap rfl).2
    simp [exportTypeLabel, h1, h2, hd]
  | array jsonArr => simp [exportTypeLabel, hd]
  | null => simp [exportTypeLabel, hd]
  | bool b => simp [exportTypeLabel, hd]
  | number lit => simp [exportTypeLabel, hd]
  | string str => simp [exportTypeLabel, hd]

theorem exportTypeLabel_dataType_witness :
    sampleLib.Unmarshal "[1,2,3]" = some (.array [.number "1", .number "2", .number "3"]) ∧
      exportTypeLabel sampleLib.FormatFloat (.array [.number "1", .number "2", .number "3"])
          { DataType := "passing" } = "passing" :=
  ⟨by rfl,
    exportTypeLabel_dataType sampleLib.FormatFloat
      (.array [.number "1", .number "2", .number "3"]) { DataType := "passing" }
      (by decide) (by intro jsonMap h; cases h)⟩

/-- C7, counterexample. The array `[1,2,3]` posted to `export/xbox/99/leagueteams` (data
type empty, export type `leagueteams`) is labelled `array_3`, not `leagueteams`. -/
theorem exportTypeLabel_array_not_exportType :
    sampleLib.Unmarshal "[1,2,3]" = some (.array [.number "1", .number "2", .number "3"]) ∧
      (extractPathMetadata "export/xbox/99/leagueteams").DataType = "" ∧
      (extractPathMetadata "export/xbox/99/leagueteams").ExportType = "leagueteams" ∧
      exportTypeLabel sampleLib.FormatFloat (.array [.number "1", .number "2", .number "3"])
          (extractPathMetadata "export/xbox/99/leagueteams") = "array_3" ∧
      exportTypeLabel sampleLib.FormatFloat (.array [.number "1", .number "2", .number "3"])
          (extractPathMetadata "export/xbox/99/leagueteams") ≠
        (extractPathMetadata "export/xbox/99/leagueteams").ExportType ∧
      (ProcessExport sampleLib
          { now := "20240102-030405", ensureDataDir := none, ensureParent := none,
            marshalIndent := .ok "[\n  1,\n  2,\n  3\n]", writeFile := none }
          { DataDir := "./data" } "[1,2,3]"
          (extractPathMetadata "export/xbox/99/leagueteams")).1 =
        .ok "data/xbox_league_99_array_3_20240102-030405.json" :=
  ⟨by rfl, by decide, by decide, by decide, by decide, by decide⟩

/-- C7, amended. The path's export type comes before the generic label for object payloads
only: for an object without a non-null `exportType` or `type` field and metadata with
`DataType` empty and `ExportType` neither empty nor `week`, the label is
`metadata.ExportType`; for every array payload and metadata with `DataType` empty, the label
is `array_` followed by the element count in decimal, whatever `ExportType` is. -/
theorem exportTypeLabel_exportType_or_array (formatFloat : String → String)
    (m : PathMetadata) (hd : m.DataType = "") :
    (∀ jsonArr : List json.Value,
        exportTypeLabel formatFloat (.array jsonArr) m =
          "array_" ++ toString jsonArr.length) ∧
      (∀ jsonMap : List (String × json.Value),
        (∀ u, json.mapIndex jsonMap "exportType" = some u → u = .null) →
        (∀ u, json.mapIndex jsonMap "type" = some u → u = .null) →
        m.ExportType ≠ "" → m.ExportType ≠ "week" →
        exportTypeLabel formatFloat (.object jsonMap) m = m.ExportType) := by
  refine ⟨fun jsonArr => ?_, fun jsonMap h1 h2 he hw => ?_⟩
  · simp [exportTypeLabel, hd]
  · have h1 := (nonNilField_eq_none jsonMap "exportType").2 h1
    have h2 := (nonNilField_eq_none jsonMap "type").2 h2
    simp [exportTypeLabel, h1, h2, hd, he, hw]

theorem exportTypeLabel_exportType_or_array_witness :
    exportTypeLabel sampleLib.FormatFloat (.array [.number "1", .number "2", .number "3"])
          { Platform := "xbox", LeagueID := "99", ExportType := "leagueteams" } =
        "array_" ++ toString 3 ∧
      exportTypeLabel sampleLib.FormatFloat (.object [("leagueTeamInfoList", .array [])])
          { Platform := "xbox", LeagueID := "99", ExportType := "leagueteams" } =
        "leagueteams" :=
  ⟨(exportTypeLabel_exportType_or_array sampleLib.FormatFloat
      { Platform := "xbox", LeagueID := "99", ExportType := "leagueteams" } rfl).1
      [.number "1", .number "2", .number "3"],
    (exportTypeLabel_exportType_or_array sampleLib.FormatFloat
      { Platform := "xbox", LeagueID := "99", ExportType := "leagueteams" } rfl).2
      [("leagueTeamInfoList", .array [])]
      (by intro u hu; simp [json.mapIndex, List.lookup] at hu)
      (by intro u hu; simp [json.mapIndex, List.lookup] at hu)
      (by decide) (by decide)⟩

theorem append_ne_empty (a b : String) (h : a ≠ "") : a ++ b ≠ "" := by
  intro hab
  apply h
  have hdata := congrArg String.data hab
  simp only [String.data_append] at hdata
  apply String.ext
  simpa using (List.append_eq_nil.1 hdata).1

theorem metadata_label_ne_empty (m : PathMetadata) :
    (if m.DataType ≠ "" then m.DataType
      else if m.ExportType ≠ "" ∧ m.ExportType ≠ "week" then m.ExportType
      else
        match (strings.Split m.Platform '/').getLast? with
        | some last => if last ≠ "" then last else "object"
        | none => "object") ≠ "" := by
  by_cases hd : m.DataType = ""
  · by_cases he : m.ExportType = ""
    · cases hl : (strings.Split m.Platform '/').getLast? with
      | none => simp [hd, he]
      | some last =>
        by_cases hlast : last = ""
        · simp [hd, he, hlast]
        · simp [hd, he, hlast]
    · by_cases hw : m.ExportType = "week"
      · cases hl : (strings.Split m.Platform '/').getLast? with
        | none => simp [hd, hw]
        | some last =>
          by_cases hlast : last = ""
          · simp [hd, hw, hlast]
          · simp [hd, hw, hlast]
      · simp [hd, he, hw]
  · simp [hd]

/-- C8, counterexample. The object `{"exportType":""}` posted to
`export/ps5/12345/standings` gets the empty label: the empty field value is not skipped in
favour of the path's export type `standings`, and the file name carries no label. -/
theorem exportTypeLabel_empty :
    sampleLib.Unmarshal "\x7b\"exportType\":\"\"\x7d" = some (.object [("exportType", .string "")]) ∧
      exportTypeLabel sampleLib.FormatFloat (.object [("exportType", .string "")])
          (extractPathMetadata "export/ps5/12345/standings") = "" ∧
      (ProcessExport sampleLib
          { now := "20240102-030405", ensureDataDir := none, ensureParent := none,
            marshalIndent := .ok "\x7b\n  \"exportType\": \"\"\n\x7d", writeFile := none }
          { DataDir := "./data" } "\x7b\"exportType\":\"\"\x7d"
          (extractPathMetadata "export/ps5/12345/standings")).1 =
        .ok "data/ps5_league_12345_20240102-030405.json" :=
  ⟨by rfl, by decide, by decide⟩

/-- C8, amended. The label is empty exactly when the payload is an object whose non-null
`exportType` field, or else whose non-null `type` field, renders as the empty string: the
label is then that rendering and no further candidate is tried.  In every other case (label
taken from the path metadata or from a literal fallback) the label is not empty. -/
theorem exportTypeLabel_eq_empty_iff (formatFloat : String → String) (jsonData : json.Value)
    (m : PathMetadata) :
    exportTypeLabel formatFloat jsonData m = "" ↔
      ∃ jsonMap, jsonData = .object jsonMap ∧
        ((∃ v, json.mapIndex jsonMap "exportType" = some v ∧ v ≠ .null ∧
            json.Sprint formatFloat v = "") ∨
          ((∀ u, json.mapIndex jsonMap "exportType" = some u → u = .null) ∧
            ∃ v, json.mapIndex jsonMap "type" = some v ∧ v ≠ .null ∧
              json.Sprint formatFloat v = "")) := by
  have harr : ∀ n : Nat, "array_" ++ toString n ≠ "" :=
    fun n => append_ne_empty _ _ (by decide)
  cases jsonData with
  | object jsonMap =>
    cases h1 : nonNilField jsonMap "exportType" with
    | some v =>
      have hv := (nonNilField_eq_some jsonMap "exportType" v).1 h1
      constructor
      · intro h
        refine ⟨jsonMap, rfl, Or.inl ⟨v, hv.1, hv.2, ?_⟩⟩
        simpa [exportTypeLabel, h1] using h
      · rintro ⟨jm, hjm, h⟩
        cases hjm
        rcases h with ⟨w, hw, _, hs⟩ | ⟨hnone, _⟩
        · have : w = v := by
            rw [hv.1] at hw
            exact (Option.some.inj hw).symm
          subst this
          simpa [exportTypeLabel, h1] using hs
        · exact absurd (hnone v hv.1) hv.2
    | none =>
      have h0 := (nonNilField_eq_none jsonMap "exportType").1 h1
      cases h2 : nonNilField jsonMap "type" with
      | some v =>
        have hv := (nonNilField_eq_some jsonMap "type" v).1 h2
        constructor
        · intro h
          refine ⟨jsonMap, rfl, Or.inr ⟨h0, v, hv.1, hv.2, ?_⟩⟩
          simpa [exportTypeLabel, h1, h2] using h
        · rintro ⟨jm, hjm, h⟩
          cases hjm
          rcases h with ⟨w, hw, hwn, _⟩ | ⟨_, w, hw, _, hs⟩
          · exact absurd (h0 w hw) hwn
          · have : w = v := by
              rw [hv.1] at hw
              exact (Option.some.inj hw).symm
            subst this
            simpa [exportTypeLabel, h1, h2] using hs
      | none =>
        have h3 := (nonNilField_eq_none jsonMap "type").1 h2
        constructor
        · intro h
          have hne := metadata_label_ne_empty m
          simp only [exportTypeLabel, h1, h2] at h
          exact absurd h hne
        · rintro ⟨jm, hjm, h⟩
          cases hjm
          rcases h with ⟨w, hw, hwn, _⟩ | ⟨_, w, hw, hwn, _⟩
          · exact absurd (h0 w hw) hwn
          · exact absurd (h3 w hw) hwn
  | array jsonArr =>
    by_cases hd : m.DataType = ""
    · simp [exportTypeLabel, hd, harr]
    · simp [exportTypeLabel, hd]
  | null => by_cases hd : m.DataType = "" <;> simp [exportTypeLabel, hd]
  | bool b => by_cases hd : m.DataType = "" <;> simp [exportTypeLabel, hd]
  | number lit => by_cases hd : m.DataType = "" <;> simp [exportTypeLabel, hd]
  | string str => by_cases hd : m.DataType = "" <;> simp [exportTypeLabel, hd]

/-! ## The JSON file name -/

theorem filenameParts_eq_specComponents (m : PathMetadata) (e : String) :
    filenameParts m e = specComponents m e := by
  unfold filenameParts specComponents
  by_cases h1 : m.Platform = "" <;> by_cases h2 : m.LeagueID = "" <;>
    by_cases h3 : m.SeasonType = "" <;> by_cases h4 : m.WeekNumber = "" <;>
    by_cases h5 : e = "" <;> simp [h1, h2, h3, h4, h5]

/-- C9. The JSON file name composed by `ProcessExport` is `base + "_" + ts + ".json"`, where
`base` is the `_`-join of the specification's component list (platform; `league_` + league
id; season type + `_week_` + week number only when both are set; label; each only if not
empty) and `madden_export_` + label when that list is empty.  When season type or week
number is empty the name is the one obtained with both empty.  On a body that decodes, with
every call succeeding, `ProcessExport` writes the marshalled value to, and returns,
`filepath.Join(DataDir, name)` for that name. -/
theorem jsonFileName_spec (m : PathMetadata) :
    (∀ e ts : String, jsonFileName m e ts = specBase m e ++ "_" ++ ts ++ ".json") ∧
      (m.SeasonType = "" ∨ m.WeekNumber = "" →
        ∀ e ts : String,
          jsonFileName m e ts =
            jsonFileName { m with SeasonType := "", WeekNumber := "" } e ts) ∧
      (∀ (lib : Lib) (env : Env) (s : Service) (body out : String) (jsonData : json.Value),
        lib.Unmarshal body = some jsonData → env.ensureDataDir = none →
        env.ensureParent = none → env.marshalIndent = .ok out → env.writeFile = none →
        ProcessExport lib env s body m =
          (.ok (filepath.Join [s.DataDir,
              jsonFileName m (exportTypeLabel lib.FormatFloat jsonData m) env.now]),
            [.MkdirAll s.DataDir,
              .MkdirAll (filepath.Dir (filepath.Join [s.DataDir,
                jsonFileName m (exportTypeLabel lib.FormatFloat jsonData m) env.now])),
              .WriteFile (filepath.Join [s.DataDir,
                jsonFileName m (exportTypeLabel lib.FormatFloat jsonData m) env.now])
                out])) := by
  refine ⟨fun e ts => ?_, fun h e ts => ?_, ?_⟩
  · unfold jsonFileName filenameBase specBase
    rw [filenameParts_eq_specComponents]
    cases hc : specComponents m e with
    | nil => simp
    | cons a as => simp
  · simp only [jsonFileName, filenameBase, filenameParts]
    rcases h with h | h <;> simp [h]
  · intro lib env s body out jsonData hbody h1 h2 h3 h4
    simp [ProcessExport, hbody, SaveJSONToFile, h1, h2, h3, h4]

theorem jsonFileName_spec_witness :
    jsonFileName
        { Platform := "ps5", LeagueID := "12345", ExportType := "week", SeasonType := "reg",
          WeekNumber := "3", DataType := "schedules" } "schedules" "20240102-030405" =
        "ps5_league_12345_reg_week_3_schedules_20240102-030405.json" ∧
      jsonFileName { Platform := "ps5", SeasonType := "reg" } "standings" "20240102-030405" =
        "ps5_standings_20240102-030405.json" ∧
      jsonFileName {} "" "20240102-030405" = "madden_export__20240102-030405.json" ∧
      ProcessExport sampleLib
          { now := "20240102-030405", ensureDataDir := none, ensureParent := none,
            marshalIndent := .ok "\x7b\n  \"exportType\": \"standings\"\n\x7d", writeFile := none }
          { DataDir := "./data" } "\x7b\"exportType\":\"standings\"\x7d" {} =
        (.ok "data/standings_20240102-030405.json",
          [.MkdirAll "./data", .MkdirAll "data",
            .WriteFile "data/standings_20240102-030405.json"
              "\x7b\n  \"exportType\": \"standings\"\n\x7d"]) :=
  ⟨((jsonFileName_spec
        { Platform := "ps5", LeagueID := "12345", ExportType := "week", SeasonType := "reg",
          WeekNumber := "3", DataType := "schedules" }).1 "schedules" "20240102-030405").trans
      (by decide),
    ((jsonFileName_spec { Platform := "ps5", SeasonType := "reg" }).2.1 (Or.inr rfl)
      "standings" "20240102-030405").trans (by decide),
    ((jsonFileName_spec {}).1 "" "20240102-030405").trans (by decide),
    ((jsonFileName_spec {}).2.2 sampleLib
      { now := "20240102-030405", ensureDataDir := none, ensureParent := none,
        marshalIndent := .ok "\x7b\n  \"exportType\": \"standings\"\n\x7d", writeFile := none }
      { DataDir := "./data" } "\x7b\"exportType\":\"standings\"\x7d"
      "\x7b\n  \"exportType\": \"standings\"\n\x7d" (.object [("exportType", .string "standings")])
      (by rfl) rfl rfl rfl rfl).trans (by decide)⟩

/-! ## The request handler -/

theorem ProcessExport_events (lib : Lib) (env : Env) (s : Service) (data : String)
    (m : PathMetadata) :
    ∀ ev ∈ (ProcessExport lib env s data m).2,
      (∃ path, ev = .MkdirAll path) ∨ (∃ path out, ev = .WriteFile path out) := by
  unfold ProcessExport SaveRawToFile SaveJSONToFile
  cases lib.Unmarshal data <;> cases env.ensureDataDir <;> cases env.ensureParent <;>
    cases env.marshalIndent <;> cases env.writeFile <;> simp

theorem responseText_file_calls (events tail : List Event)
    (h : ∀ ev ∈ events,
      (∃ path, ev = .MkdirAll path) ∨ (∃ path out, ev = .WriteFile path out)) :
    responseText (events ++ tail) = responseText tail := by
  induction events with
  | nil => rfl
  | cons ev events ih =>
    have hrest : ∀ e ∈ events,
        (∃ path, e = .MkdirAll path) ∨ (∃ path out, e = .WriteFile path out) :=
      fun e he => h e (List.mem_cons_of_mem _ he)
    rcases h ev (List.mem_cons_self _ _) with ⟨path, rfl⟩ | ⟨path, out, rfl⟩
    · simpa [responseText] using ih hrest
    · simpa [responseText] using ih hrest

theorem length_eq_zero_iff (body : String) : body.length = 0 ↔ body = "" := by
  constructor
  · intro h
    cases body with
    | mk data =>
      have hdata : data = [] := List.length_eq_zero.1 h
      subst hdata
      rfl
  · intro h
    subst h
    rfl

/-- C10. Whatever the request (method, path, body) and whatever reading the body and
`ProcessExport` come to, the first call `ExportHandler` makes is `WriteHeader(200)`, so that
it precedes the read of the body (`ReadAll`, wherever it occurs in the trace, has
`WriteHeader(200)` before it), no other `WriteHeader` follows, and the status of the
response is 200.  When `ProcessExport` returns an error, the response text is
`Data received but could not be processed: ` followed by the error. -/
theorem ExportHandler_status_ok (lib : Lib) (env : Env) (s : Service) (r : Request) :
    statusWritten (ExportHandler lib env s r) = some 200 ∧
      (∃ rest, ExportHandler lib env s r = .WriteHeader 200 :: rest ∧
        ∀ statusCode, Event.WriteHeader statusCode ∉ rest) ∧
      (∀ before after, ExportHandler lib env s r = before ++ .ReadAll :: after →
        Event.WriteHeader 200 ∈ before) ∧
      (∀ body err events, r.Method ≠ "GET" → r.Body = .ok body → body ≠ "" →
        ProcessExport lib env s body (extractPathMetadata r.Path) = (.error err, events) →
        responseText (ExportHandler lib env s r) =
          "Data received but could not be processed: " ++ err) := by
  have horder : ∀ before after, ExportHandler lib env s r = before ++ .ReadAll :: after →
      Event.WriteHeader 200 ∈ before := by
    intro before after h
    cases before with
    | nil =>
      have hhead := congrArg List.head? h
      simp [ExportHandler] at hhead
    | cons ev before =>
      have hhead := congrArg List.head? h
      simp only [ExportHandler, List.head?_cons, List.cons_append, Option.some.injEq]
        at hhead
      rw [← hhead]
      exact List.mem_cons_self _ _
  refine ⟨rfl, ⟨_, rfl, ?_⟩, horder, ?_⟩
  · intro statusCode
    by_cases hget : r.Method = "GET"
    · simp [hget]
    · cases hb : r.Body with
      | error err => simp [hget]
      | ok body =>
        by_cases hlen : body.length = 0
        · simp [hget, hlen]
        · have hev := ProcessExport_events lib env s body (extractPathMetadata r.Path)
          rcases hpe : ProcessExport lib env s body (extractPathMetadata r.Path) with
            ⟨res, events⟩
          rw [hpe] at hev
          have hnot : Event.WriteHeader statusCode ∉ events := by
            intro hmem
            rcases hev _ hmem with ⟨path, h⟩ | ⟨path, out, h⟩ <;> cases h
          cases res with
          | error err => simp [hget, hlen, hpe, hnot]
          | ok path => simp [hget, hlen, hpe, hnot]
  · intro body err events hget hb hne hpe
    have hlen : ¬ body.length = 0 := fun h => hne ((length_eq_zero_iff body).1 h)
    have hev := ProcessExport_events lib env s body (extractPathMetadata r.Path)
    rw [hpe] at hev
    simp only [ExportHandler, hget, hb, hlen, hpe, if_false, responseText]
    rw [responseText_file_calls events _ hev]
    simp [responseText]

theorem ExportHandler_status_ok_witness :
    statusWritten
        (ExportHandler sampleLib
          { now := "20240102-030405", ensureDataDir := some "mkdir ./data: permission denied",
            ensureParent := none, marshalIndent := .ok "[\n  1\n]", writeFile := none }
          { DataDir := "./data" }
          { Method := "POST", Path := "/export/ps5/12345/standings", Body := .ok "[1]" }) =
        some 200 ∧
      responseText
        (ExportHandler sampleLib
          { now := "20240102-030405", ensureDataDir := some "mkdir ./data: permission denied",
            ensureParent := none, marshalIndent := .ok "[\n  1\n]", writeFile := none }
          { DataDir := "./data" }
          { Method := "POST", Path := "/export/ps5/12345/standings", Body := .ok "[1]" }) =
        "Data received but could not be processed: " ++
          "failed to create data directory: mkdir ./data: permission denied" :=
  ⟨(ExportHandler_status_ok sampleLib
      { now := "20240102-030405", ensureDataDir := some "mkdir ./data: permission denied",
        ensureParent := none, marshalIndent := .ok "[\n  1\n]", writeFile := none }
      { DataDir := "./data" }
      { Method := "POST", Path := "/export/ps5/12345/standings", Body := .ok "[1]" }).1,
    (ExportHandler_status_ok sampleLib
      { now := "20240102-030405", ensureDataDir := some "mkdir ./data: permission denied",
        ensureParent := none, marshalIndent := .ok "[\n  1\n]", writeFile := none }
      { DataDir := "./data" }
      { Method := "POST", Path := "/export/ps5/12345/standings", Body := .ok "[1]" }).2.2.2
      "[1]" "failed to create data directory: mkdir ./data: permission denied"
      [.MkdirAll "./data"] (by decide) rfl (by decide) (by rfl)⟩

/-! ## Which requests are processed -/

/-- C11. For a request whose body is read without error, `ExportHandler` is the handler
with `extractPathMetadata` and `ProcessExport` in the two call positions, and for whatever
functions stand in these positions: when the method is not GET and the body is not empty
the trace is `WriteHeader(200)`, the read of the body, the outside calls of one call of
`process` on the body and on `classify` of the request path, the answer for the result of
that call, and the close of the body; a GET request yields `WriteHeader(200)` and the
readiness message, an empty body `WriteHeader(200)`, the read, the acknowledgment and the
close, and in these two cases nothing of `classify` or `process` enters the trace.  A
`process` that leaves one mark per call leaves one mark in the first case and none in the
other two. -/
theorem ExportHandler_processes_iff (lib : Lib) (env : Env) (s : Service) (r : Request)
    (body : String) (hbody : r.Body = .ok body) :
    ExportHandler lib env s r =
        ExportHandlerWith extractPathMetadata (ProcessExport lib env s) r ∧
      (∀ (classify : String → PathMetadata)
          (process : String → PathMetadata → Except String String × List Event),
        (r.Method ≠ "GET" ∧ body ≠ "" →
          ExportHandlerWith classify process r =
            .WriteHeader 200 :: .ReadAll :: (process body (classify r.Path)).2 ++
              [.Fprintf (processedText (process body (classify r.Path)).1), .BodyClose]) ∧
        (r.Method = "GET" →
          ExportHandlerWith classify process r =
            [.WriteHeader 200,
              .Fprintf "Madden Companion Export endpoint is ready. Send data to this URL."]) ∧
        (r.Method ≠ "GET" → body = "" →
          ExportHandlerWith classify process r =
            [.WriteHeader 200, .ReadAll,
              .Fprintf "Request received with empty body. Endpoint is working.",
              .BodyClose])) ∧
      (∀ classify : String → PathMetadata,
        (ExportHandlerWith classify (fun _ _ => (.ok "", [.MkdirAll "call"])) r).count
            (.MkdirAll "call") =
          if r.Method ≠ "GET" ∧ body ≠ "" then 1 else 0) := by
  have hgeneric : ∀ (classify : String → PathMetadata)
      (process : String → PathMetadata → Except String String × List Event),
      (r.Method ≠ "GET" ∧ body ≠ "" →
        ExportHandlerWith classify process r =
          .WriteHeader 200 :: .ReadAll :: (process body (classify r.Path)).2 ++
            [.Fprintf (processedText (process body (classify r.Path)).1), .BodyClose]) ∧
      (r.Method = "GET" →
        ExportHandlerWith classify process r =
          [.WriteHeader 200,
            .Fprintf "Madden Companion Export endpoint is ready. Send data to this URL."]) ∧
      (r.Method ≠ "GET" → body = "" →
        ExportHandlerWith classify process r =
          [.WriteHeader 200, .ReadAll,
            .Fprintf "Request received with empty body. Endpoint is working.",
            .BodyClose]) := by
    intro classify process
    refine ⟨?_, ?_, ?_⟩
    · rintro ⟨hget, hne⟩
      have hlen : ¬ body.length = 0 := fun h => hne ((length_eq_zero_iff body).1 h)
      unfold ExportHandlerWith
      rcases hpe : process body (classify r.Path) with ⟨res, events⟩
      cases res <;> simp [hget, hbody, hlen, hpe, processedText]
    · intro hget
      simp [ExportHandlerWith, hget]
    · intro hget hempty
      subst hempty
      simp [ExportHandlerWith, hget, hbody]
  refine ⟨?_, hgeneric, ?_⟩
  · unfold ExportHandler ExportHandlerWith
    rfl
  · intro classify
    by_cases hget : r.Method = "GET"
    · rw [(hgeneric classify _).2.1 hget]
      simp [hget]
    · by_cases hne : body = ""
      · rw [(hgeneric classify _).2.2 hget hne]
        simp [hne]
      · rw [(hgeneric classify _).1 ⟨hget, hne⟩]
        simp [hget, hne]

theorem ExportHandler_processes_iff_witness :
    ExportHandler sampleLib
        { now := "20240102-030405", ensureDataDir := none, ensureParent := none,
          marshalIndent := .ok "[\n  1\n]", writeFile := none }
        { DataDir := "./data" }
        { Method := "POST", Path := "/export/ps5/12345/standings", Body := .ok "[1]" } =
        [.WriteHeader 200, .ReadAll, .MkdirAll "./data", .MkdirAll "data",
          .WriteFile "data/ps5_league_12345_array_1_20240102-030405.json" "[\n  1\n]",
          .Fprintf "Data received and saved successfully", .BodyClose] ∧
      ExportHandlerWith (fun path => { Platform := path })
          (fun data metadata => (.error "refused", [.WriteFile metadata.Platform data]))
          { Method := "PUT", Path := "/export/ps5", Body := .ok "[1]" } =
        [.WriteHeader 200, .ReadAll, .WriteFile "/export/ps5" "[1]",
          .Fprintf "Data received but could not be processed: refused", .BodyClose] ∧
      ExportHandler sampleLib
        { now := "20240102-030405", ensureDataDir := none, ensureParent := none,
          marshalIndent := .ok "[\n  1\n]", writeFile := none }
        { DataDir := "./data" }
        { Method := "GET", Path := "/export/ps5/12345/standings", Body := .ok "[1]" } =
        [.WriteHeader 200,
          .Fprintf "Madden Companion Export endpoint is ready. Send data to this URL."] ∧
      ExportHandler sampleLib
        { now := "20240102-030405", ensureDataDir := none, ensureParent := none,
          marshalIndent := .ok "[\n  1\n]", writeFile := none }
        { DataDir := "./data" }
        { Method := "POST", Path := "/export/ps5/12345/standings", Body := .ok "" } =
        [.WriteHeader 200, .ReadAll,
          .Fprintf "Request received with empty body. Endpoint is working.", .BodyClose] :=
  ⟨((ExportHandler_processes_iff sampleLib
        { now := "20240102-030405", ensureDataDir := none, ensureParent := none,
          marshalIndent := .ok "[\n  1\n]", writeFile := none }
        { DataDir := "./data" }
        { Method := "POST", Path := "/export/ps5/12345/standings", Body := .ok "[1]" }
        "[1]" rfl).1.trans
      (((ExportHandler_processes_iff sampleLib
        { now := "20240102-030405", ensureDataDir := none, ensureParent := none,
          marshalIndent := .ok "[\n  1\n]", writeFile := none }
        { DataDir := "./data" }
        { Method := "POST", Path := "/export/ps5/12345/standings", Body := .ok "[1]" }
        "[1]" rfl).2.1 _ _).1 ⟨by decide, by decide⟩)).trans (by decide),
    (((ExportHandler_processes_iff sampleLib
        { now := "20240102-030405", ensureDataDir := none, ensureParent := none,
          marshalIndent := .ok "[\n  1\n]", writeFile := none }
        { DataDir := "./data" }
        { Method := "PUT", Path := "/export/ps5", Body := .ok "[1]" } "[1]" rfl).2.1
      (fun path => { Platform := path })
      (fun data metadata => (.error "refused", [.WriteFile metadata.Platform data]))).1
      ⟨by decide, by decide⟩).trans (by decide),
    (ExportHandler_processes_iff sampleLib
        { now := "20240102-030405", ensureDataDir := none, ensureParent := none,
          marshalIndent := .ok "[\n  1\n]", writeFile := none }
        { DataDir := "./data" }
        { Method := "GET", Path := "/export/ps5/12345/standings", Body := .ok "[1]" }
        "[1]" rfl).1.trans
      (((ExportHandler_processes_iff sampleLib
        { now := "20240102-030405", ensureDataDir := none, ensureParent := none,
          marshalIndent := .ok "[\n  1\n]", writeFile := none }
        { DataDir := "./data" }
        { Method := "GET", Path := "/export/ps5/12345/standings", Body := .ok "[1]" }
        "[1]" rfl).2.1 _ _).2.1 rfl),
    (ExportHandler_processes_iff sampleLib
        { now := "20240102-030405", ensureDataDir := none, ensureParent := none,
          marshalIndent := .ok "[\n  1\n]", writeFile := none }
        { DataDir := "./data" }
        { Method := "POST", Path := "/export/ps5/12345/standings", Body := .ok "" }
        "" rfl).1.trans
      (((ExportHandler_processes_iff sampleLib
        { now := "20240102-030405", ensureDataDir := none, ensureParent := none,
          marshalIndent := .ok "[\n  1\n]", writeFile := none }
        { DataDir := "./data" }
        { Method := "POST", Path := "/export/ps5/12345/standings", Body := .ok "" }
        "" rfl).2.1 _ _).2.2 (by decide) rfl)⟩

/-! ## The platform fallback of the label -/

theorem splitBytes_piece_free (sep : Char) (cs : List Char) :
    ∀ piece ∈ strings.splitBytes sep cs, sep ∉ piece := by
  induction cs with
  | nil => simp [strings.splitBytes]
  | cons c cs ih =>
    by_cases hc : c = sep
    · intro piece hmem
      simp only [strings.splitBytes, hc, if_true, List.mem_cons] at hmem
      rcases hmem with h | h
      · subst h; simp
      · exact ih piece h
    · cases hs : strings.splitBytes sep cs with
      | nil =>
        intro piece hmem
        simp only [strings.splitBytes, hc, if_false, hs, List.mem_singleton] at hmem
        subst hmem
        simpa using fun h => hc h.symm
      | cons first others =>
        rw [hs] at ih
        intro piece hmem
        simp only [strings.splitBytes, hc, if_false, hs, List.mem_cons] at hmem
        rcases hmem with h | h
        · subst h
          have hfirst := ih first (List.mem_cons_self _ _)
          simp only [List.mem_cons, not_or]
          exact ⟨fun h => hc h.symm, hfirst⟩
        · exact ih piece (List.mem_cons_of_mem _ h)

theorem nonEmptySegments_free (path seg : String) (h : seg ∈ nonEmptySegments path) :
    '/' ∉ seg.data := by
  simp only [nonEmptySegments, strings.Split, List.mem_filter, List.mem_map] at h
  rcases h with ⟨⟨piece, hpiece, rfl⟩, _⟩
  exact splitBytes_piece_free '/' path.data piece hpiece

theorem extractPathMetadata_fields (path : String) :
    (extractPathMetadata path).Platform ∈ "" :: nonEmptySegments path ∧
      (extractPathMetadata path).LeagueID ∈ "" :: nonEmptySegments path ∧
      (extractPathMetadata path).ExportType ∈ "" :: nonEmptySegments path ∧
      (extractPathMetadata path).SeasonType ∈ "" :: nonEmptySegments path ∧
      (extractPathMetadata path).WeekNumber ∈ "" :: nonEmptySegments path ∧
      (extractPathMetadata path).DataType ∈ "" :: nonEmptySegments path := by
  rcases hs : nonEmptySegments path with
    _ | ⟨a, _ | ⟨b, _ | ⟨c, _ | ⟨d, _ | ⟨e, _ | ⟨f, _ | ⟨g, rest⟩⟩⟩⟩⟩⟩⟩
  case nil => simp [extractPathMetadata, cleanParts_eq_nonEmptySegments, hs]
  all_goals
    by_cases ha : a = "export"
    · first
        | simp [extractPathMetadata, cleanParts_eq_nonEmptySegments, hs, ha]; done
        | (by_cases hd : d = "week"
           · simp [extractPathMetadata, cleanParts_eq_nonEmptySegments, hs, ha, hd]
           · simp [extractPathMetadata, cleanParts_eq_nonEmptySegments, hs, ha, hd])
    · simp [extractPathMetadata, cleanParts_eq_nonEmptySegments, hs, ha]

theorem mem_segments_or_empty_free (path field : String)
    (h : field ∈ "" :: nonEmptySegments path) : '/' ∉ field.data := by
  rcases List.mem_cons.1 h with h | h
  · subst h
    simp
  · exact nonEmptySegments_free path field h

theorem Split_free (field : String) (h : '/' ∉ field.data) :
    strings.Split field '/' = [field] := by
  simp [strings.Split, splitBytes_no_sep _ _ h]

/-- C12, the code at the failing input. The object `{}` posted to `export/ps5/123` is
classified with data type and export type empty, so the label comes from the fallback of
handlers.go, lines 207-213.  The last part of the URL path is `123`, which is what the
comment on line 207 announces; the label is `ps5`, the last piece of `metadata.Platform`,
and not the literal `object` either; the file is `ps5_league_123_ps5_<timestamp>.json`. -/
theorem exportTypeLabel_platform_reached :
    sampleLib.Unmarshal "\x7b\x7d" = some (.object []) ∧
      extractPathMetadata "export/ps5/123" = { Platform := "ps5", LeagueID := "123" } ∧
      (nonEmptySegments "export/ps5/123").getLast? = some "123" ∧
      exportTypeLabel sampleLib.FormatFloat (.object [])
          (extractPathMetadata "export/ps5/123") = "ps5" ∧
      exportTypeLabel sampleLib.FormatFloat (.object [])
          (extractPathMetadata "export/ps5/123") ≠ "object" ∧
      (ProcessExport sampleLib
          { now := "20240102-030405", ensureDataDir := none, ensureParent := none,
            marshalIndent := .ok "\x7b\x7d", writeFile := none }
          { DataDir := "./data" } "\x7b\x7d" (extractPathMetadata "export/ps5/123")).1 =
        .ok "data/ps5_league_123_ps5_20240102-030405.json" :=
  ⟨by rfl, by decide, by decide, by decide, by decide, by decide⟩

theorem nonEmptySegments_ne_empty (path seg : String) (h : seg ∈ nonEmptySegments path) :
    seg ≠ "" := by
  simp only [nonEmptySegments, List.mem_filter] at h
  simpa using h.2

theorem extractPathMetadata_platform_eq_empty_iff (path : String) :
    (extractPathMetadata path).Platform = "" ↔
      (nonEmptySegments path).length < 2 ∨
        (nonEmptySegments path).head? ≠ some "export" := by
  constructor
  · intro hp
    by_contra hcon
    simp only [not_or, not_lt, ne_eq, not_not] at hcon
    rcases hs : nonEmptySegments path with _ | ⟨a, _ | ⟨b, rest⟩⟩
    · rw [hs] at hcon; simp at hcon
    · rw [hs] at hcon; simp at hcon
    · have hb : b ≠ "" := nonEmptySegments_ne_empty path b (by rw [hs]; simp)
      have ha : a = "export" := by
        have := hcon.2
        rw [hs] at this
        simpa using this
      have hplat : (extractPathMetadata path).Platform = b := by
        rcases rest with _ | ⟨c, _ | ⟨d, rest2⟩⟩
        · simp [extractPathMetadata, cleanParts_eq_nonEmptySegments, hs, ha]
        · simp [extractPathMetadata, cleanParts_eq_nonEmptySegments, hs, ha]
        · by_cases hd : d = "week"
          · rcases rest2 with _ | ⟨e, _ | ⟨f, _ | ⟨g, rest3⟩⟩⟩ <;>
              simp [extractPathMetadata, cleanParts_eq_nonEmptySegments, hs, ha, hd]
          · simp [extractPathMetadata, cleanParts_eq_nonEmptySegments, hs, ha, hd]
      exact hb (hplat ▸ hp)
  · intro h
    rw [extractPathMetadata_empty path h]

/-- What the fallback of handlers.go, lines 207-213, computes on classified metadata: for
every path and every JSON object payload without a non-null `exportType` or `type` field,
when the classified `DataType` is empty and `ExportType` is empty or `week`, the label is
the literal `object` if the classified `Platform` is empty, and is the classified
`Platform` otherwise. -/
theorem exportTypeLabel_platform_fallback (formatFloat : String → String) (path : String)
    (jsonMap : List (String × json.Value))
    (h1 : ∀ u, json.mapIndex jsonMap "exportType" = some u → u = .null)
    (h2 : ∀ u, json.mapIndex jsonMap "type" = some u → u = .null)
    (hd : (extractPathMetadata path).DataType = "")
    (he : (extractPathMetadata path).ExportType = "" ∨
      (extractPathMetadata path).ExportType = "week") :
    exportTypeLabel formatFloat (.object jsonMap) (extractPathMetadata path) =
      if (extractPathMetadata path).Platform = "" then "object"
      else (extractPathMetadata path).Platform := by
  have hf1 := (nonNilField_eq_none jsonMap "exportType").2 h1
  have hf2 := (nonNilField_eq_none jsonMap "type").2 h2
  have hsplit := Split_free _
    (mem_segments_or_empty_free path _ (extractPathMetadata_fields path).1)
  by_cases hp : (extractPathMetadata path).Platform = ""
  · rw [hp] at hsplit
    rcases he with he | he <;> simp [exportTypeLabel, hf1, hf2, hd, he, hsplit, hp]
  · rcases he with he | he <;> simp [exportTypeLabel, hf1, hf2, hd, he, hsplit, hp]

/-! ## Where the JSON file is written -/

theorem append_free (a b : String) (ha : '/' ∉ a.data) (hb : '/' ∉ b.data) :
    '/' ∉ (a ++ b).data := by
  simp only [String.data_append, List.mem_append, not_or]
  exact ⟨ha, hb⟩

theorem Join_free (parts : List String) (sep : String) (hsep : '/' ∉ sep.data)
    (hparts : ∀ part ∈ parts, '/' ∉ part.data) : '/' ∉ (strings.Join parts sep).data := by
  induction parts with
  | nil => simp [strings.Join]
  | cons e es ih =>
    have he := hparts e (List.mem_cons_self _ _)
    have hes : ∀ part ∈ es, '/' ∉ part.data :=
      fun part hmem => hparts part (List.mem_cons_of_mem _ hmem)
    cases es with
    | nil => simpa [strings.Join] using he
    | cons e2 es2 =>
      simp only [strings.Join]
      exact append_free _ _ (append_free _ _ he hsep) (ih hes)

theorem filenameParts_free (m : PathMetadata) (e : String) (hp : '/' ∉ m.Platform.data)
    (hl : '/' ∉ m.LeagueID.data) (hs : '/' ∉ m.SeasonType.data)
    (hw : '/' ∉ m.WeekNumber.data) (he : '/' ∉ e.data) :
    ∀ part ∈ filenameParts m e, '/' ∉ part.data := by
  have hleague : '/' ∉ ("league_" ++ m.LeagueID).data := append_free _ _ (by decide) hl
  have hweek : '/' ∉ (m.SeasonType ++ "_week_" ++ m.WeekNumber).data :=
    append_free _ _ (append_free _ _ hs (by decide)) hw
  intro part hmem
  rw [filenameParts_eq_specComponents] at hmem
  simp only [specComponents, List.mem_append] at hmem
  rcases hmem with ((hmem | hmem) | hmem) | hmem
  · split at hmem
    · rw [List.mem_singleton.1 hmem]; exact hp
    · cases hmem
  · split at hmem
    · rw [List.mem_singleton.1 hmem]; exact hleague
    · cases hmem
  · split at hmem
    · rw [List.mem_singleton.1 hmem]; exact hweek
    · cases hmem
  · split at hmem
    · rw [List.mem_singleton.1 hmem]; exact he
    · cases hmem

theorem jsonFileName_free (path e ts : String) (he : '/' ∉ e.data) (hts : '/' ∉ ts.data) :
    '/' ∉ (jsonFileName (extractPathMetadata path) e ts).data := by
  have hf := extractPathMetadata_fields path
  have hparts := filenameParts_free (extractPathMetadata path) e
    (mem_segments_or_empty_free path _ hf.1) (mem_segments_or_empty_free path _ hf.2.1)
    (mem_segments_or_empty_free path _ hf.2.2.2.1)
    (mem_segments_or_empty_free path _ hf.2.2.2.2.1) he
  have hbase : '/' ∉ (filenameBase (extractPathMetadata path) e).data := by
    unfold filenameBase
    split
    · exact Join_free _ _ (by decide) hparts
    · exact append_free _ _ (by decide) he
  unfold jsonFileName
  exact append_free _ _ (append_free _ _ (append_free _ _ hbase (by decide)) hts) (by decide)

/-- C13, the code at the failing input. The object `{"exportType":"../../tmp/evil"}` posted
to `/export` decodes, the file name composed is `../../tmp/evil_20240102-030405.json`, which
holds `/`, and with data directory `./data` the file is written to, and the path returned
is, `../tmp/evil_20240102-030405.json`, outside the data directory. -/
theorem ProcessExport_leaves_dataDir :
    sampleLib.Unmarshal "\x7b\"exportType\":\"../../tmp/evil\"\x7d" =
        some (.object [("exportType", .string "../../tmp/evil")]) ∧
      extractPathMetadata "/export" = {} ∧
      jsonFileName (extractPathMetadata "/export")
          (exportTypeLabel sampleLib.FormatFloat
            (.object [("exportType", .string "../../tmp/evil")])
            (extractPathMetadata "/export"))
          "20240102-030405" = "../../tmp/evil_20240102-030405.json" ∧
      '/' ∈ "../../tmp/evil_20240102-030405.json".data ∧
      ProcessExport sampleLib
          { now := "20240102-030405", ensureDataDir := none, ensureParent := none,
            marshalIndent := .ok "\x7b\n  \"exportType\": \"../../tmp/evil\"\n\x7d",
            writeFile := none }
          { DataDir := "./data" } "\x7b\"exportType\":\"../../tmp/evil\"\x7d"
          (extractPathMetadata "/export") =
        (.ok "../tmp/evil_20240102-030405.json",
          [.MkdirAll "./data", .MkdirAll "../tmp",
            .WriteFile "../tmp/evil_20240102-030405.json"
              "\x7b\n  \"exportType\": \"../../tmp/evil\"\n\x7d"]) :=
  ⟨by rfl, by decide, by decide, by decide, by decide⟩
